import Mathlib

/-!
Shallow embedding of the Monte Carlo stage-transition simulation engine of
the vc-sim-playground repository (`simulatePortfolio` / `runStandardSimulation`
in `src/components/simulator.tsx`, and the identical copies in the App file),
together with the MOIC histogram utility (`getMoicChartData`).

Randomness: every call to `Math.random()` in the source consumes the next
value of an abstract stream `rand : Nat → ℚ`; an explicit counter `k` is
threaded through the state, incremented once per draw, in exactly the order
the source draws.  JS numbers are modelled as ℚ.
-/

namespace VCSim

/-- The fixed stage order of `stagesSequence = ["Pre-Seed", "Seed", "Series A",
"Series B", "Series C", "IPO"]`. -/
inductive Stage
  | preSeed | seed | seriesA | seriesB | seriesC | ipo
  deriving DecidableEq, Repr

/-- Index of a stage in `stagesSequence`. -/
def Stage.idx : Stage → Nat
  | .preSeed => 0
  | .seed => 1
  | .seriesA => 2
  | .seriesB => 3
  | .seriesC => 4
  | .ipo => 5

/-- `stagesSequence[i+1]` for the stage at index `i`; `ipo` (the last entry)
is mapped to itself, but no transition list ever contains `ipo` as a
from-stage. -/
def Stage.next : Stage → Stage
  | .preSeed => .seed
  | .seed => .seriesA
  | .seriesA => .seriesB
  | .seriesB => .seriesC
  | .seriesC => .ipo
  | .ipo => .ipo

/-- The from-stages of the transitions attempted by the stage loop starting
from a given entry stage: the loop `for (i = stageIdx; i < length - 1; i++)`
visits `stagesSequence[i]` as from-stage for `i` from the entry index to 4. -/
def transitionsFrom : Stage → List Stage
  | .preSeed => [.preSeed, .seed, .seriesA, .seriesB, .seriesC]
  | .seed => [.seed, .seriesA, .seriesB, .seriesC]
  | .seriesA => [.seriesA, .seriesB, .seriesC]
  | .seriesB => [.seriesB, .seriesC]
  | .seriesC => [.seriesC]
  | .ipo => []

/-- `lo + Math.random() * (hi - lo)` with the draw `r` made explicit. -/
def sampleUniform (range : ℚ × ℚ) (r : ℚ) : ℚ :=
  range.1 + r * (range.2 - range.1)

/-- The configuration maps the engine reads.  JS map lookups that can miss
(`m[key] ?? d` or `m[key] || d`) are modelled as `Option`-valued maps read
with `getD`; transition-keyed maps (`"<from> to <to>"`) are keyed by the
from-stage, since every transition goes to the immediately next stage.
`stageAllocations` is read without a default in the source and is modelled
total. -/
structure SimConfig where
  probAdvancement : Stage → Option ℚ
  dilution : Stage → Option (ℚ × ℚ)
  exitValuations : Stage → Option (ℚ × ℚ)
  lossProbabilities : Stage → Option ℚ
  stageAllocations : Stage → ℚ
  valuations : Stage → Option (ℚ × ℚ)
  checkSizes : Stage → Option (ℚ × ℚ)
  deployableCapital : ℚ

/-- A follow-on configuration (`followOn` / `followOnAB`): the average
valuation written into `entryAmount` on a forced round, and the set of
selected company ids (`selected[company.id]`). -/
structure FollowOn where
  avgVal : ℚ
  selected : Nat → Bool

/-- A portfolio company (the fields the engine reads). -/
structure Company where
  id : Nat
  stage : Stage
  checkSize : ℚ

/-- An output investment record (the run/company id string is omitted; no
claim concerns it). -/
structure Investment where
  entryStage : Stage
  entryAmount : ℚ
  exitStage : Stage
  exitAmount : ℚ
  deriving DecidableEq, Repr

/-- The mutable locals of the per-company portfolio loop, plus the random
counter `k` and two instrumentation counters recording how often each forced
follow-on override fired. -/
structure PState where
  entryAmount : ℚ
  equity : ℚ
  currentStage : Stage
  exitStage : Stage
  exitAmount : ℚ
  reachedIPO : Bool
  forcedSeedFollow : Bool
  forcedABFollow : Bool
  seedFires : Nat
  abFires : Nat
  k : Nat
  deriving DecidableEq, Repr

/-- `followOn && followOn.selected && followOn.selected[company.id]`. -/
def selectedIn (fo : Option FollowOn) (cid : Nat) : Bool :=
  match fo with
  | some f => f.selected cid
  | none => false

/-- One iteration of the portfolio-mode stage loop (`simulatePortfolio`,
body of `for (let i = stageIdx; ...)`): forced follow-on detection, forced or
probabilistic advancement, dilution, and the IPO exit.  Returns the new state
and `true` when the loop continues (`false` models `break`). -/
def portfolioStep (cfg : SimConfig) (fo foAB : Option FollowOn) (cid : Nat)
    (rand : Nat → ℚ) (st : PState) (fromStage : Stage) : PState × Bool :=
  let toStage := fromStage.next
  let seedForce : Bool :=
    !st.forcedSeedFollow && decide (fromStage = Stage.seed) && selectedIn fo cid &&
      decide (st.currentStage = Stage.seed)
  let abForce : Bool :=
    !st.forcedABFollow && decide (fromStage = Stage.seriesA) && selectedIn foAB cid &&
      decide (st.currentStage = Stage.seriesA)
  let st1 :=
    if seedForce then { st with forcedSeedFollow := true, seedFires := st.seedFires + 1 } else st
  let st2 :=
    if abForce then { st1 with forcedABFollow := true, abFires := st1.abFires + 1 } else st1
  let forceAdvance := seedForce || abForce
  let progressionProb := (cfg.probAdvancement fromStage).getD 0
  if forceAdvance then
    let dRange := (cfg.dilution fromStage).getD (10, 25)
    let d := sampleUniform dRange (rand st2.k)
    let equity1 := st2.equity * (1 - d / 100)
    let entry1 :=
      if fromStage = Stage.seed then
        -- `entryAmount = followOn.avgVal`; a seed force implies `fo = some _`
        match fo with | some f => f.avgVal | none => st2.entryAmount
      else if fromStage = Stage.seriesA then
        match foAB with | some f => f.avgVal | none => st2.entryAmount
      else st2.entryAmount
    let st3 := { st2 with
      equity := equity1, currentStage := toStage, entryAmount := entry1, k := st2.k + 1 }
    if toStage = Stage.ipo then
      let exitRange := (cfg.exitValuations Stage.seriesC).getD (100, 1000)
      let exitVal := sampleUniform exitRange (rand st3.k)
      ({ st3 with
          exitStage := Stage.ipo,
          exitAmount := st3.equity * exitVal * st3.entryAmount,
          reachedIPO := true, k := st3.k + 1 }, false)
    else (st3, true)
  else
    if rand st2.k * 100 < progressionProb then
      let dRange := (cfg.dilution fromStage).getD (10, 25)
      let d := sampleUniform dRange (rand (st2.k + 1))
      let equity1 := st2.equity * (1 - d / 100)
      let st3 := { st2 with equity := equity1, currentStage := toStage, k := st2.k + 2 }
      if toStage = Stage.ipo then
        let exitRange := (cfg.exitValuations Stage.seriesC).getD (100, 1000)
        let exitVal := sampleUniform exitRange (rand st3.k)
        ({ st3 with
            exitStage := Stage.ipo,
            exitAmount := st3.equity * exitVal * st3.entryAmount,
            reachedIPO := true, k := st3.k + 1 }, false)
      else (st3, true)
    else
      ({ st2 with k := st2.k + 1 }, false)

/-- The portfolio-mode stage loop over the list of from-stages. -/
def portfolioLoop (cfg : SimConfig) (fo foAB : Option FollowOn) (cid : Nat)
    (rand : Nat → ℚ) : List Stage → PState → PState
  | [], st => st
  | fs :: rest, st =>
    let res := portfolioStep cfg fo foAB cid rand st fs
    if res.2 then portfolioLoop cfg fo foAB cid rand rest res.1 else res.1

/-- Simulation of one portfolio company for one run (`simulatePortfolio`,
body of `for (const company of portfolioCompanies)`): initial state
(`entryAmount = company.checkSize || 1`, `equity = 1`), the stage loop, and
the terminal loss-probability check / exit-valuation sampling.  Returns the
pushed `Investment` record and the final state.  The initial state is the
locals at the top of the per-company body: `entryAmount = company.checkSize
|| 1` (JS `||` replaces the falsy `0`), `equity = 1`, `currentStage =
exitStage = entryStage`, `exitAmount = 0`. -/
def initialPState (c : Company) (k0 : Nat) : PState :=
  { entryAmount := if c.checkSize = 0 then 1 else c.checkSize
    equity := 1
    currentStage := c.stage
    exitStage := c.stage
    exitAmount := 0
    reachedIPO := false
    forcedSeedFollow := false
    forcedABFollow := false
    seedFires := 0
    abFires := 0
    k := k0 }

def simulateCompany (cfg : SimConfig) (fo foAB : Option FollowOn) (c : Company)
    (rand : Nat → ℚ) (k0 : Nat) : Investment × PState :=
  let entryStage := c.stage
  let st1 := portfolioLoop cfg fo foAB c.id rand (transitionsFrom entryStage) (initialPState c k0)
  let lossProb := (cfg.lossProbabilities st1.currentStage).getD 30
  let st2 :=
    if rand st1.k * 100 < lossProb then
      { st1 with exitStage := st1.currentStage, exitAmount := 0, k := st1.k + 1 }
    else if st1.reachedIPO = false then
      let exitRange := (cfg.exitValuations st1.currentStage).getD (4, 10)
      let exitVal := sampleUniform exitRange (rand (st1.k + 1))
      { st1 with
          exitStage := st1.currentStage,
          exitAmount := st1.equity * exitVal * st1.entryAmount,
          k := st1.k + 2 }
    else { st1 with k := st1.k + 1 }
  (⟨entryStage, st2.entryAmount, st2.exitStage, st2.exitAmount⟩, st2)

/-- The per-run company loop: investments in order, `paidIn = Σ entryAmount`,
`distributed = Σ exitAmount`, and the final random counter. -/
def portfolioRunCompanies (cfg : SimConfig) (fo foAB : Option FollowOn)
    (rand : Nat → ℚ) : List Company → Nat → List Investment × ℚ × ℚ × Nat
  | [], k => ([], 0, 0, k)
  | c :: cs, k =>
    let res := simulateCompany cfg fo foAB c rand k
    let rest := portfolioRunCompanies cfg fo foAB rand cs res.2.k
    (res.1 :: rest.1, res.1.entryAmount + rest.2.1, res.1.exitAmount + rest.2.2.1, rest.2.2.2)

/-- The per-run quantities the aggregator records for one run. -/
structure RunResult where
  investments : List Investment
  paidIn : ℚ
  distributed : ℚ
  moic : ℚ
  irr : ℚ

/-- One portfolio-mode Monte-Carlo run.  `powFifth` models `Math.pow(·, 1/5)`
(real fifth root on floats, not expressible in ℚ); every theorem that touches
`irr` constrains it only through facts true of `Math.pow`, such as
`Math.pow(0, 0.2) = 0`. -/
def portfolioRun (cfg : SimConfig) (fo foAB : Option FollowOn) (powFifth : ℚ → ℚ)
    (cs : List Company) (rand : Nat → ℚ) (k0 : Nat) : RunResult :=
  let res := portfolioRunCompanies cfg fo foAB rand cs k0
  let paidIn := res.2.1
  let distributed := res.2.2.1
  { investments := res.1
    paidIn := paidIn
    distributed := distributed
    moic := if paidIn > 0 then distributed / paidIn else 0
    irr := if paidIn > 0 then
        min (max ((powFifth (distributed / paidIn) - 1) * 100) (-50)) 100
      else 0 }

/-! ### Fund mode (`runStandardSimulation`) -/

/-- The mutable locals of the fund-mode stage loop for one investment. -/
structure FState where
  equity : ℚ
  currentStage : Stage
  k : Nat
  deriving DecidableEq, Repr

/-- The fund-mode stage loop (`for (let i = 0; i < stagesSequence.length - 1; i++)`
in `runStandardSimulation`): advancement uses `Math.random() * 100 <=
(probAdvancement[key] || 0)` — less-than-or-equal, unlike portfolio mode —
dilution defaults to `[10, 20]`, and there is no IPO short-circuit. -/
def fundAdvanceLoop (cfg : SimConfig) (rand : Nat → ℚ) : List Stage → FState → FState
  | [], st => st
  | fs :: rest, st =>
    if rand st.k * 100 ≤ (cfg.probAdvancement fs).getD 0 then
      let dRange := (cfg.dilution fs).getD (10, 20)
      let d := sampleUniform dRange (rand (st.k + 1))
      fundAdvanceLoop cfg rand rest
        { equity := st.equity * (1 - d / 100), currentStage := fs.next, k := st.k + 2 }
    else { st with k := st.k + 1 }

/-- Fund-mode simulation of a single generated investment after its check
size and valuation have been drawn: the stage loop, then the terminal
loss-probability check (`Math.random() * 100 > lossProb` means survival) and
exit sampling `exitAmount = equity * exitValuation` (no `entryAmount`
factor, unlike portfolio mode; default exit range `[10, 90]`). -/
def fundSimulateInvestment (cfg : SimConfig) (stage : Stage) (checkSize valuation : ℚ)
    (rand : Nat → ℚ) (k0 : Nat) : Investment × Nat :=
  let st := fundAdvanceLoop cfg rand (transitionsFrom stage)
    { equity := checkSize / valuation, currentStage := stage, k := k0 }
  let lossProb := (cfg.lossProbabilities st.currentStage).getD 30
  if rand st.k * 100 > lossProb then
    let exitRange := (cfg.exitValuations st.currentStage).getD (10, 90)
    let exitVal := sampleUniform exitRange (rand (st.k + 1))
    (⟨stage, checkSize, st.currentStage, st.equity * exitVal⟩, st.k + 2)
  else
    (⟨stage, checkSize, st.currentStage, 0⟩, st.k + 1)

/-- The fund-mode investment generation loop for one stage
(`while (deployedInStage < allocation)`): sample valuation (default range
`[1, 10]`) and check size (default `[0.5, 2]`), clip the check to the
remaining budget, stop on the `0.1` dust threshold, otherwise simulate and
record the investment and continue.  The JS `while` loop always terminates
because every recorded check deposits at least `0.1`; the `fuel` argument
makes the recursion structural, and callers pass provably sufficient fuel. -/
def genStage (cfg : SimConfig) (stage : Stage) (rand : Nat → ℚ) :
    Nat → ℚ → ℚ → Nat → List Investment × Nat
  | 0, _, _, k => ([], k)
  | fuel + 1, allocation, deployed, k =>
    if deployed < allocation then
      let valRange := (cfg.valuations stage).getD (1, 10)
      let checkRange := (cfg.checkSizes stage).getD (1/2, 2)
      let valuation := sampleUniform valRange (rand k)
      let checkSize0 := sampleUniform checkRange (rand (k + 1))
      let checkSize := min checkSize0 (allocation - deployed)
      if checkSize < 1/10 then ([], k + 2)
      else
        let res := fundSimulateInvestment cfg stage checkSize valuation rand (k + 2)
        let rest := genStage cfg stage rand fuel allocation (deployed + checkSize) res.2
        (res.1 :: rest.1, rest.2)
    else ([], k)

/-- `reduce((sum, inv) => sum + inv.entryAmount, 0)`. -/
def sumEntry (l : List Investment) : ℚ := (l.map (fun i => i.entryAmount)).sum

/-- `reduce((sum, inv) => sum + inv.exitAmount, 0)`. -/
def sumExit (l : List Investment) : ℚ := (l.map (fun i => i.exitAmount)).sum

/-- The stage budget of fund mode: `(stageAllocations[stage] / 100) * deployableCapital`. -/
def stageBudget (cfg : SimConfig) (stage : Stage) : ℚ :=
  cfg.stageAllocations stage / 100 * cfg.deployableCapital

/-- Sufficient fuel for `genStage`: each recorded investment deposits at
least `0.1`, so the `while` loop runs at most `⌈10 · allocation⌉ + 1` times. -/
def genFuel (allocation : ℚ) : Nat := (⌈allocation * 10⌉).toNat + 1

/-- The fund-mode per-run stage loop (`for (const stage of validStages)`).
Returns the concatenated investments and the final random counter. -/
def fundRunStages (cfg : SimConfig) (rand : Nat → ℚ) :
    List Stage → Nat → List Investment × Nat
  | [], k => ([], k)
  | s :: rest, k =>
    let allocation := stageBudget cfg s
    let res := genStage cfg s rand (genFuel allocation) allocation 0 k
    let more := fundRunStages cfg rand rest res.2
    (res.1 ++ more.1, more.2)

/-- `validStages = stages.slice(stages.indexOf(initialStage))` over
`["Pre-Seed", "Seed", "Series A", "Series B"]`.  The UI restricts
`initialStage` to those four stages; later stages are mapped to `[]`
(JS `indexOf = -1` / `slice(-1)` is out of the modelled domain). -/
def validStages : Stage → List Stage
  | .preSeed => [.preSeed, .seed, .seriesA, .seriesB]
  | .seed => [.seed, .seriesA, .seriesB]
  | .seriesA => [.seriesA, .seriesB]
  | .seriesB => [.seriesB]
  | _ => []

/-- One fund-mode Monte-Carlo run: generation and simulation per stage, then
the per-run aggregation.  Note the fund-mode `irr` is computed from `moic`
unconditionally — there is no `paidIn > 0` guard on `irr` in this mode. -/
def fundRun (cfg : SimConfig) (powFifth : ℚ → ℚ) (initial : Stage)
    (rand : Nat → ℚ) (k0 : Nat) : RunResult :=
  let res := fundRunStages cfg rand (validStages initial) k0
  let invs := res.1
  let paidIn := sumEntry invs
  let distributed := sumExit invs
  let moic := if paidIn > 0 then distributed / paidIn else 0
  { investments := invs
    paidIn := paidIn
    distributed := distributed
    moic := moic
    irr := min (max ((powFifth moic - 1) * 100) (-50)) 100 }

/-! ### MOIC histogram utility (`getMoicChartData`) -/

/-- `Math.min(...list)` for a nonempty list (the utility is only invoked on
nonempty `moics`; JS yields `Infinity` on an empty spread, out of the
modelled domain). -/
def listMin : List ℚ → ℚ
  | [] => 0
  | x :: xs => xs.foldl min x

/-- `Math.max(...list)` for a nonempty list. -/
def listMax : List ℚ → ℚ
  | [] => 0
  | x :: xs => xs.foldl max x

/-- `Math.min(Math.floor((moic - minMoic) / binSize), binCount - 1)` with
`binCount = 10`.  When `binSize = 0` every reachable numerator is `0`, and
IEEE `0 / 0 = NaN` propagates through `floor` and `min` and then fails the
`binIndex >= 0` bounds test — modelled as `none`. -/
def jsBinIndex (minMoic binSize v : ℚ) : Option ℤ :=
  if binSize = 0 then none
  else some (min ⌊(v - minMoic) / binSize⌋ 9)

/-- The bin counts of `getMoicChartData`: ten equal-width bins over
`[min, max]`, each value counted at its clipped bin index when that index
passes the `0 ≤ binIndex < bins.length` test. -/
def moicBinCounts (moics : List ℚ) : List Nat :=
  let minMoic := listMin moics
  let maxMoic := listMax moics
  let binSize := (maxMoic - minMoic) / 10
  (List.range 10).map (fun i : Nat =>
    (moics.filter (fun v => jsBinIndex minMoic binSize v = some (i : ℤ))).length)

/-- A minimal configuration for concrete runs: every map empty (all
defaults apply), zero allocations. -/
def emptyCfg : SimConfig :=
  { probAdvancement := fun _ => none
    dilution := fun _ => none
    exitValuations := fun _ => none
    lossProbabilities := fun _ => none
    stageAllocations := fun _ => 0
    valuations := fun _ => none
    checkSizes := fun _ => none
    deployableCapital := 100 }

/-- A configuration whose only nonzero advancement probability is 50 for
Seed (used to exhibit the boundary draw `r * 100 = 50`). -/
def c3Cfg : SimConfig :=
  { emptyCfg with probAdvancement := fun s => (if s = Stage.seed then some 50 else some 0) }

/-- A configuration with a positive Seed budget whose check-size range is
degenerate at 0, so the first clipped check always falls below the dust
threshold. -/
def dustCfg : SimConfig :=
  { emptyCfg with
      stageAllocations := fun _ => 100
      deployableCapital := 1
      checkSizes := fun _ => some (0, 0) }

/-- A configuration with degenerate unit ranges for fund-mode generation
witnesses. -/
def unitCfg : SimConfig :=
  { emptyCfg with
      stageAllocations := fun _ => 100
      deployableCapital := 1
      valuations := fun _ => some (1, 1)
      checkSizes := fun _ => some (1, 1) }

/-- A configuration whose only nonzero advancement probability is 100 for
Series C → IPO, used to drive a portfolio company into the IPO branch. -/
def seriesCCfg : SimConfig :=
  { emptyCfg with probAdvancement := fun s => (if s = Stage.seriesC then some 100 else some 0) }

/-! ### Helper lemmas -/

/-- Classification of one portfolio step: stall (state unchanged but for the
consumed draw), continue into the next stage, or break into IPO. -/
theorem portfolioStep_cases (cfg : SimConfig) (fo foAB : Option FollowOn) (cid : Nat)
    (rand : Nat → ℚ) (st : PState) (fs : Stage) :
    portfolioStep cfg fo foAB cid rand st fs = ({ st with k := st.k + 1 }, false) ∨
    ((portfolioStep cfg fo foAB cid rand st fs).2 = true ∧
      (portfolioStep cfg fo foAB cid rand st fs).1.currentStage = fs.next ∧
      (portfolioStep cfg fo foAB cid rand st fs).1.reachedIPO = st.reachedIPO ∧
      (portfolioStep cfg fo foAB cid rand st fs).1.exitStage = st.exitStage ∧
      (portfolioStep cfg fo foAB cid rand st fs).1.exitAmount = st.exitAmount) ∨
    ((portfolioStep cfg fo foAB cid rand st fs).2 = false ∧
      (portfolioStep cfg fo foAB cid rand st fs).1.currentStage = Stage.ipo ∧
      (portfolioStep cfg fo foAB cid rand st fs).1.reachedIPO = true ∧
      (portfolioStep cfg fo foAB cid rand st fs).1.exitStage = Stage.ipo ∧
      fs.next = Stage.ipo) := by
  unfold portfolioStep
  split_ifs <;> simp_all [Stage.next] <;> split_ifs <;> simp_all

/-- Generic preservation of a state predicate along the portfolio stage loop. -/
theorem portfolioLoop_invariant (cfg : SimConfig) (fo foAB : Option FollowOn) (cid : Nat)
    (rand : Nat → ℚ) (P : PState → Prop)
    (hstep : ∀ st fs, P st → P (portfolioStep cfg fo foAB cid rand st fs).1)
    (l : List Stage) : ∀ st : PState, P st → P (portfolioLoop cfg fo foAB cid rand l st) := by
  induction l with
  | nil => intro st h; simpa [portfolioLoop] using h
  | cons fs rest ih =>
    intro st h
    simp only [portfolioLoop]
    split
    · exact ih _ (hstep st fs h)
    · exact hstep st fs h

/-- If the stage loop sets `reachedIPO`, it also set `exitStage` and
`currentStage` to IPO (they are only ever written together). -/
theorem portfolioLoop_reachedIPO (cfg : SimConfig) (fo foAB : Option FollowOn) (cid : Nat)
    (rand : Nat → ℚ) (l : List Stage) : ∀ st : PState, st.reachedIPO = false →
    (portfolioLoop cfg fo foAB cid rand l st).reachedIPO = true →
    (portfolioLoop cfg fo foAB cid rand l st).exitStage = Stage.ipo ∧
    (portfolioLoop cfg fo foAB cid rand l st).currentStage = Stage.ipo := by
  induction l with
  | nil =>
    intro st h0 h1
    simp only [portfolioLoop] at h1
    rw [h0] at h1
    simp at h1
  | cons fs rest ih =>
    intro st h0 h1
    rcases portfolioStep_cases cfg fo foAB cid rand st fs with heq | ⟨h2, _, hr, _, _⟩ |
      ⟨h2, hc, hr, he, _⟩
    · simp only [portfolioLoop, heq] at h1
      simp only [Bool.false_eq_true, if_false] at h1
      rw [h0] at h1
      simp at h1
    · simp only [portfolioLoop, h2, if_true] at h1 ⊢
      exact ih _ (hr.trans h0) h1
    · simp only [portfolioLoop, h2, Bool.false_eq_true, if_false] at h1 ⊢
      exact ⟨he, hc⟩

/-- Decomposition of a nonempty transition list: the first from-stage is the
stage the list was built from, and the tail is the transition list of the
next stage. -/
theorem transitionsFrom_cons (s fs : Stage) (rest : List Stage)
    (h : transitionsFrom s = fs :: rest) : fs = s ∧ rest = transitionsFrom fs.next := by
  cases s
  case ipo => exact absurd h (by simp [transitionsFrom])
  all_goals
    simp only [transitionsFrom] at h
    injection h with h1 h2
    subst h1
    subst h2
    exact ⟨rfl, rfl⟩

/-- Every stage index is at most 5. -/
theorem Stage.idx_le_five (s : Stage) : s.idx ≤ 5 := by cases s <;> simp [Stage.idx]

/-- Advancing moves the index up. -/
theorem Stage.idx_le_next (s : Stage) : s.idx ≤ s.next.idx := by
  cases s <;> simp [Stage.idx, Stage.next]

/-- The stage loop never moves `currentStage` backwards when run on the
transition list of its current stage. -/
theorem portfolioLoop_idx_le (cfg : SimConfig) (fo foAB : Option FollowOn) (cid : Nat)
    (rand : Nat → ℚ) (l : List Stage) : ∀ st : PState, l = transitionsFrom st.currentStage →
    st.currentStage.idx ≤ (portfolioLoop cfg fo foAB cid rand l st).currentStage.idx := by
  induction l with
  | nil => intro st _; simp [portfolioLoop]
  | cons fs rest ih =>
    intro st hl
    obtain ⟨hfs, hrest⟩ := transitionsFrom_cons _ _ _ hl.symm
    rcases portfolioStep_cases cfg fo foAB cid rand st fs with heq | ⟨h2, hc, _, _, _⟩ |
      ⟨h2, hc, _, _, _⟩
    · rw [portfolioLoop, heq]
      simp
    · rw [portfolioLoop, if_pos h2]
      have := ih (portfolioStep cfg fo foAB cid rand st fs).1 (by rw [hc, ← hrest])
      rw [hc] at this
      calc st.currentStage.idx = fs.idx := by rw [hfs]
        _ ≤ fs.next.idx := Stage.idx_le_next fs
        _ ≤ _ := this
    · rw [portfolioLoop, if_neg (by simp [h2]), hc]
      exact (Stage.idx_le_five _).trans (by simp [Stage.idx])

/-- One step of the fund-mode loop either stalls (returning with only the
advancement draw consumed) or advances to the next stage with a sampled
dilution applied. -/
theorem fundAdvanceLoop_cases (cfg : SimConfig) (rand : Nat → ℚ) (fs : Stage)
    (rest : List Stage) (st : FState) :
    fundAdvanceLoop cfg rand (fs :: rest) st = { st with k := st.k + 1 } ∨
    fundAdvanceLoop cfg rand (fs :: rest) st = fundAdvanceLoop cfg rand rest
      { equity := st.equity *
          (1 - sampleUniform ((cfg.dilution fs).getD (10, 20)) (rand (st.k + 1)) / 100),
        currentStage := fs.next, k := st.k + 2 } := by
  simp only [fundAdvanceLoop]
  split
  · exact Or.inr rfl
  · exact Or.inl rfl

/-- The fund-mode loop never moves `currentStage` backwards when run on the
transition list of its current stage. -/
theorem fundAdvanceLoop_idx_le (cfg : SimConfig) (rand : Nat → ℚ) (l : List Stage) :
    ∀ st : FState, l = transitionsFrom st.currentStage →
    st.currentStage.idx ≤ (fundAdvanceLoop cfg rand l st).currentStage.idx := by
  induction l with
  | nil => intro st _; simp [fundAdvanceLoop]
  | cons fs rest ih =>
    intro st hl
    obtain ⟨hfs, hrest⟩ := transitionsFrom_cons _ _ _ hl.symm
    rcases fundAdvanceLoop_cases cfg rand fs rest st with heq | heq
    · rw [heq]
    · rw [heq]
      have hnext := ih
        { equity := st.equity *
            (1 - sampleUniform ((cfg.dilution fs).getD (10, 20)) (rand (st.k + 1)) / 100),
          currentStage := fs.next, k := st.k + 2 } (by simpa using hrest)
      calc st.currentStage.idx = fs.idx := by rw [hfs]
        _ ≤ fs.next.idx := Stage.idx_le_next fs
        _ ≤ _ := hnext

/-- The investment record of `fundSimulateInvestment`: entry stage and check
size are recorded as given, and the exit stage is the loop's final stage. -/
theorem fundSimulateInvestment_fields (cfg : SimConfig) (s : Stage) (c v : ℚ)
    (rand : Nat → ℚ) (k0 : Nat) :
    (fundSimulateInvestment cfg s c v rand k0).1.entryStage = s ∧
    (fundSimulateInvestment cfg s c v rand k0).1.entryAmount = c ∧
    (fundSimulateInvestment cfg s c v rand k0).1.exitStage =
      (fundAdvanceLoop cfg rand (transitionsFrom s)
        { equity := c / v, currentStage := s, k := k0 }).currentStage := by
  simp only [fundSimulateInvestment]
  split_ifs <;> simp

/-- The terminal loss/exit phase of `simulateCompany` preserves the entry
amount and the override counters, and sets the recorded exit stage to either
the final current stage or the exit stage left by the loop. -/
theorem simulateCompany_spec (cfg : SimConfig) (fo foAB : Option FollowOn) (c : Company)
    (rand : Nat → ℚ) (k0 : Nat) :
    (simulateCompany cfg fo foAB c rand k0).1.entryStage = c.stage ∧
    (simulateCompany cfg fo foAB c rand k0).1.entryAmount =
      (portfolioLoop cfg fo foAB c.id rand (transitionsFrom c.stage)
        (initialPState c k0)).entryAmount ∧
    (simulateCompany cfg fo foAB c rand k0).2.seedFires =
      (portfolioLoop cfg fo foAB c.id rand (transitionsFrom c.stage)
        (initialPState c k0)).seedFires ∧
    (simulateCompany cfg fo foAB c rand k0).2.abFires =
      (portfolioLoop cfg fo foAB c.id rand (transitionsFrom c.stage)
        (initialPState c k0)).abFires ∧
    ((simulateCompany cfg fo foAB c rand k0).1.exitStage =
        (portfolioLoop cfg fo foAB c.id rand (transitionsFrom c.stage)
          (initialPState c k0)).currentStage ∨
      ((simulateCompany cfg fo foAB c rand k0).1.exitStage =
        (portfolioLoop cfg fo foAB c.id rand (transitionsFrom c.stage)
          (initialPState c k0)).exitStage ∧
        (portfolioLoop cfg fo foAB c.id rand (transitionsFrom c.stage)
          (initialPState c k0)).reachedIPO = true)) := by
  simp only [simulateCompany]
  split_ifs <;> simp_all [Bool.not_eq_false]

/-! ### Claims -/

/-- C4: in portfolio mode, for a company flagged selected in the Seed
follow-on config, currently at Seed, whose override has not yet fired, the
Seed → Series A transition succeeds regardless of the drawn advancement
probability (no probability hypothesis appears below), dilution is still
sampled from the configured range (default `[10, 25]`) and applied to
equity, and `entryAmount` is overwritten with the follow-on config's average
valuation. -/
theorem c4_forced_seed_follow_on (cfg : SimConfig) (fo foAB : Option FollowOn) (f : FollowOn)
    (cid : Nat) (rand : Nat → ℚ) (st : PState)
    (hfo : fo = some f) (hsel : f.selected cid = true)
    (hnot : st.forcedSeedFollow = false) (hcur : st.currentStage = Stage.seed) :
    portfolioStep cfg fo foAB cid rand st Stage.seed =
      ({ st with
          forcedSeedFollow := true
          seedFires := st.seedFires + 1
          equity := st.equity *
            (1 - sampleUniform ((cfg.dilution Stage.seed).getD (10, 25)) (rand st.k) / 100)
          currentStage := Stage.seriesA
          entryAmount := f.avgVal
          k := st.k + 1 }, true) := by
  subst hfo
  simp [portfolioStep, selectedIn, hsel, hnot, hcur, Stage.next]

/-- Witness for C4 at a concrete input: check size 2, average valuation 9,
all advancement probabilities 0 — the investment still advances to Series A
with `entryAmount = 9` and dilution (default lower bound 10%) applied. -/
theorem c4_witness :
    (portfolioStep { emptyCfg with probAdvancement := fun _ => some 0 }
        (some ⟨9, fun _ => true⟩) none 0 (fun _ => 0)
        (initialPState ⟨0, Stage.seed, 2⟩ 0) Stage.seed).1.entryAmount = 9 ∧
    (portfolioStep { emptyCfg with probAdvancement := fun _ => some 0 }
        (some ⟨9, fun _ => true⟩) none 0 (fun _ => 0)
        (initialPState ⟨0, Stage.seed, 2⟩ 0) Stage.seed).1.currentStage = Stage.seriesA ∧
    (portfolioStep { emptyCfg with probAdvancement := fun _ => some 0 }
        (some ⟨9, fun _ => true⟩) none 0 (fun _ => 0)
        (initialPState ⟨0, Stage.seed, 2⟩ 0) Stage.seed).1.equity = 9 / 10 := by
  have h := c4_forced_seed_follow_on { emptyCfg with probAdvancement := fun _ => some 0 }
    (some ⟨9, fun _ => true⟩) none ⟨9, fun _ => true⟩ 0 (fun _ => 0)
    (initialPState ⟨0, Stage.seed, 2⟩ 0) rfl rfl rfl rfl
  rw [h]
  norm_num [initialPState, sampleUniform, emptyCfg]

/-- Step preservation of the override counters: each counter is bumped only
when its flag flips from unset to set, so each stays at most 1 and is 0
while its flag is unset. -/
theorem portfolioStep_counters (cfg : SimConfig) (fo foAB : Option FollowOn) (cid : Nat)
    (rand : Nat → ℚ) (st : PState) (fs : Stage)
    (h : (st.forcedSeedFollow = false → st.seedFires = 0) ∧ st.seedFires ≤ 1 ∧
      (st.forcedABFollow = false → st.abFires = 0) ∧ st.abFires ≤ 1) :
    ((portfolioStep cfg fo foAB cid rand st fs).1.forcedSeedFollow = false →
      (portfolioStep cfg fo foAB cid rand st fs).1.seedFires = 0) ∧
    (portfolioStep cfg fo foAB cid rand st fs).1.seedFires ≤ 1 ∧
    ((portfolioStep cfg fo foAB cid rand st fs).1.forcedABFollow = false →
      (portfolioStep cfg fo foAB cid rand st fs).1.abFires = 0) ∧
    (portfolioStep cfg fo foAB cid rand st fs).1.abFires ≤ 1 := by
  obtain ⟨h1, h2, h3, h4⟩ := h
  simp only [portfolioStep]
  split_ifs <;> simp_all

/-- C5 (amended): in every portfolio-mode run, each of the two forced
follow-on overrides (Seed → Series A and Series A → Series B) fires at most
once per investment per run; the two overrides combined can therefore fire
up to twice, not once (see the counterexample). -/
theorem c5_override_once_per_transition (cfg : SimConfig) (fo foAB : Option FollowOn)
    (c : Company) (rand : Nat → ℚ) (k0 : Nat) :
    (simulateCompany cfg fo foAB c rand k0).2.seedFires ≤ 1 ∧
    (simulateCompany cfg fo foAB c rand k0).2.abFires ≤ 1 := by
  have hinv := portfolioLoop_invariant cfg fo foAB c.id rand
    (fun st => (st.forcedSeedFollow = false → st.seedFires = 0) ∧ st.seedFires ≤ 1 ∧
      (st.forcedABFollow = false → st.abFires = 0) ∧ st.abFires ≤ 1)
    (fun st fs h => portfolioStep_counters cfg fo foAB c.id rand st fs h)
    (transitionsFrom c.stage) (initialPState c k0) (by simp [initialPState])
  have hspec := simulateCompany_spec cfg fo foAB c rand k0
  exact ⟨hspec.2.2.1 ▸ hinv.2.1, hspec.2.2.2.1 ▸ hinv.2.2.2⟩

/-- C5 counterexample: a company at Seed selected in BOTH follow-on configs
(with every advancement probability 0) is forced twice in the same run —
once at Seed → Series A and once at Series A → Series B — so the overrides
fire twice for one investment in one run, contradicting "at most once per
investment per run over both configs combined". -/
theorem c5_counterexample :
    (simulateCompany { emptyCfg with probAdvancement := fun _ => some 0 }
        (some ⟨5, fun _ => true⟩) (some ⟨6, fun _ => true⟩) ⟨0, Stage.seed, 2⟩
        (fun _ => 0) 0).2.seedFires +
      (simulateCompany { emptyCfg with probAdvancement := fun _ => some 0 }
        (some ⟨5, fun _ => true⟩) (some ⟨6, fun _ => true⟩) ⟨0, Stage.seed, 2⟩
        (fun _ => 0) 0).2.abFires = 2 := by
  simp [simulateCompany, portfolioLoop, portfolioStep, initialPState, transitionsFrom,
    selectedIn, sampleUniform, Stage.next, emptyCfg]

/-- C2 (amended): a run with zero paid-in capital records `moic = 0` in both
modes and `irr = 0` in portfolio mode; but in fund mode the IRR computation
is not guarded by `paidIn > 0`, so it evaluates the annualization at
`moic = 0` and clips to `-50` (`Math.pow(0, 1/5) = 0`, hence
`(0 - 1) * 100 = -100`, clipped to the floor `-50`) — never NaN or
Infinity, but not 0. -/
theorem c2_zero_paid_in (cfg : SimConfig) (fo foAB : Option FollowOn) (powFifth : ℚ → ℚ)
    (cs : List Company) (cfg2 : SimConfig) (powFifth2 : ℚ → ℚ) (initial : Stage)
    (rand rand2 : Nat → ℚ) (k0 k2 : Nat)
    (hp : (portfolioRun cfg fo foAB powFifth cs rand k0).paidIn = 0)
    (hpow : powFifth2 0 = 0)
    (hf : (fundRun cfg2 powFifth2 initial rand2 k2).paidIn = 0) :
    (portfolioRun cfg fo foAB powFifth cs rand k0).moic = 0 ∧
    (portfolioRun cfg fo foAB powFifth cs rand k0).irr = 0 ∧
    (fundRun cfg2 powFifth2 initial rand2 k2).moic = 0 ∧
    (fundRun cfg2 powFifth2 initial rand2 k2).irr = -50 := by
  simp only [portfolioRun] at hp ⊢
  simp only [fundRun] at hf ⊢
  rw [hp, hf]
  norm_num [hpow]

/-- C2 counterexample: fund mode with every stage allocation 0 generates no
investments, so `paidIn = 0` and `moic = 0`, but the recorded IRR is `-50`,
not `0` as claimed.  (`powFifth` is instantiated at the only point used,
`0`, with the IEEE value `Math.pow(0, 0.2) = 0`.) -/
theorem c2_counterexample :
    (fundRun emptyCfg (fun _ => 0) Stage.preSeed (fun _ => 0) 0).paidIn = 0 ∧
    (fundRun emptyCfg (fun _ => 0) Stage.preSeed (fun _ => 0) 0).irr = -50 ∧
    (fundRun emptyCfg (fun _ => 0) Stage.preSeed (fun _ => 0) 0).irr ≠ 0 := by
  norm_num [fundRun, fundRunStages, genStage, genFuel, stageBudget, validStages, sumEntry,
    sumExit, emptyCfg]

/-- Witness for C2 at concrete inputs: an empty portfolio run and a
zero-allocation fund run. -/
theorem c2_witness :
    (portfolioRun emptyCfg none none (fun _ => 0) [] (fun _ => 0) 0).moic = 0 ∧
    (portfolioRun emptyCfg none none (fun _ => 0) [] (fun _ => 0) 0).irr = 0 ∧
    (fundRun emptyCfg (fun _ => 0) Stage.preSeed (fun _ => 0) 0).moic = 0 ∧
    (fundRun emptyCfg (fun _ => 0) Stage.preSeed (fun _ => 0) 0).irr = -50 := by
  have h := c2_zero_paid_in emptyCfg none none (fun _ => 0) [] emptyCfg (fun _ => 0)
    Stage.preSeed (fun _ => 0) (fun _ => 0) 0 0
    (by norm_num [portfolioRun, portfolioRunCompanies]) rfl
    (by norm_num [fundRun, fundRunStages, genStage, genFuel, stageBudget, validStages,
      sumEntry, sumExit, emptyCfg])
  exact ⟨h.1, h.2.1, h.2.2.1, h.2.2.2⟩

/-- A step never changes `entryAmount` for a company that is not selected in
either follow-on config. -/
theorem portfolioStep_entry_const (cfg : SimConfig) (fo foAB : Option FollowOn) (cid : Nat)
    (rand : Nat → ℚ) (st : PState) (fs : Stage)
    (hs : selectedIn fo cid = false) (hab : selectedIn foAB cid = false) :
    (portfolioStep cfg fo foAB cid rand st fs).1.entryAmount = st.entryAmount := by
  simp only [portfolioStep, hs, hab]
  split_ifs <;> simp_all

/-- C10 (amended): a portfolio company whose `checkSize` is 0 is never
rejected: it is simulated with `entryAmount` silently replaced by 1, and —
provided no forced follow-on override applies to it — that substituted 1 is
the recorded `entryAmount`, is what the run adds to `paidIn`, and is the
factor used for exit scaling.  (If a follow-on override fires, `entryAmount`
is overwritten with the config's average valuation instead — see the
counterexample.) -/
theorem c10_zero_check_size (cfg : SimConfig) (fo foAB : Option FollowOn) (powFifth : ℚ → ℚ)
    (c : Company) (rand : Nat → ℚ) (k0 : Nat)
    (h0 : c.checkSize = 0) (hs : selectedIn fo c.id = false)
    (hab : selectedIn foAB c.id = false) :
    (portfolioRun cfg fo foAB powFifth [c] rand k0).investments =
      [(simulateCompany cfg fo foAB c rand k0).1] ∧
    (simulateCompany cfg fo foAB c rand k0).1.entryAmount = 1 ∧
    (portfolioRun cfg fo foAB powFifth [c] rand k0).paidIn = 1 := by
  have hconst : (portfolioLoop cfg fo foAB c.id rand (transitionsFrom c.stage)
      (initialPState c k0)).entryAmount = 1 :=
    portfolioLoop_invariant cfg fo foAB c.id rand (fun st => st.entryAmount = 1)
      (fun st fs h => by
        have h1 : st.entryAmount = 1 := h
        show (portfolioStep cfg fo foAB c.id rand st fs).1.entryAmount = 1
        rw [portfolioStep_entry_const cfg fo foAB c.id rand st fs hs hab]
        exact h1)
      (transitionsFrom c.stage) (initialPState c k0) (by simp [initialPState, h0])
  have hentry : (simulateCompany cfg fo foAB c rand k0).1.entryAmount = 1 :=
    (simulateCompany_spec cfg fo foAB c rand k0).2.1.trans hconst
  refine ⟨?_, hentry, ?_⟩
  · simp [portfolioRun, portfolioRunCompanies]
  · simp [portfolioRun, portfolioRunCompanies, hentry]

/-- C10 counterexample: a zero-check-size company at Seed selected in the
Seed follow-on config (average valuation 7, all advancement probabilities 0)
contributes 7 to `paidIn`, not the substituted 1 — the overwrite, not the
substitution, is what reaches the paid-in total. -/
theorem c10_counterexample :
    (portfolioRun { emptyCfg with probAdvancement := fun _ => some 0 }
        (some ⟨7, fun _ => true⟩) none (fun _ => 0) [⟨0, Stage.seed, 0⟩]
        (fun _ => 0) 0).paidIn = 7 ∧
    (portfolioRun { emptyCfg with probAdvancement := fun _ => some 0 }
        (some ⟨7, fun _ => true⟩) none (fun _ => 0) [⟨0, Stage.seed, 0⟩]
        (fun _ => 0) 0).paidIn ≠ 1 := by
  simp [portfolioRun, portfolioRunCompanies, simulateCompany, portfolioLoop, portfolioStep,
    initialPState, transitionsFrom, selectedIn, sampleUniform, Stage.next, emptyCfg]

/-- Witness for C10: a zero-check-size company not selected anywhere. -/
theorem c10_witness :
    (simulateCompany emptyCfg none none ⟨0, Stage.seed, 0⟩ (fun _ => 0) 0).1.entryAmount = 1 ∧
    (portfolioRun emptyCfg none none (fun _ => 0) [⟨0, Stage.seed, 0⟩]
      (fun _ => 0) 0).paidIn = 1 := by
  have h := c10_zero_check_size emptyCfg none none (fun _ => 0) ⟨0, Stage.seed, 0⟩
    (fun _ => 0) 0 rfl rfl rfl
  exact ⟨h.2.1, h.2.2⟩

set_option maxHeartbeats 1000000 in
/-- A step keeps `entryAmount` positive as long as every follow-on config in
play has a positive average valuation. -/
theorem portfolioStep_entry_pos (cfg : SimConfig) (fo foAB : Option FollowOn) (cid : Nat)
    (rand : Nat → ℚ) (st : PState) (fs : Stage)
    (hfo : ∀ f, fo = some f → 0 < f.avgVal) (hfab : ∀ g, foAB = some g → 0 < g.avgVal)
    (h : 0 < st.entryAmount) : 0 < (portfolioStep cfg fo foAB cid rand st fs).1.entryAmount := by
  rcases fo with _ | f <;> rcases foAB with _ | g
  · simp only [portfolioStep]; split_ifs <;> simp_all
  · have hg := hfab g rfl
    simp only [portfolioStep]; split_ifs <;> simp_all
  · have hf := hfo f rfl
    simp only [portfolioStep]; split_ifs <;> simp_all
  · have hf := hfo f rfl
    have hg := hfab g rfl
    simp only [portfolioStep]; split_ifs <;> simp_all

/-- Every investment the fund-mode generator records has `entryAmount` at
least the `0.1` dust threshold. -/
theorem genStage_entry_ge (cfg : SimConfig) (s : Stage) (rand : Nat → ℚ) :
    ∀ (fuel : Nat) (allocation deployed : ℚ) (k : Nat) (inv : Investment),
    inv ∈ (genStage cfg s rand fuel allocation deployed k).1 → 1/10 ≤ inv.entryAmount := by
  intro fuel
  induction fuel with
  | zero => intro a d k inv h; simp [genStage] at h
  | succ n ih =>
    intro a d k inv h
    simp only [genStage] at h
    split_ifs at h with h1 h2
    · simp at h
    · rcases List.mem_cons.1 h with hhd | htl
      · have hfields := fundSimulateInvestment_fields cfg s
          (min (sampleUniform ((cfg.checkSizes s).getD (1/2, 2)) (rand (k + 1)))
            (a - d))
          (sampleUniform ((cfg.valuations s).getD (1, 10)) (rand k)) rand (k + 2)
        rw [hhd, hfields.2.1]
        linarith [not_lt.1 h2]
      · exact ih a (d + _) _ inv htl
    · simp at h

/-- C8 (amended): every recorded investment has a strictly positive
`entryAmount`, provided (portfolio mode) the company's check size is
non-negative and every follow-on config in play has a strictly positive
average valuation; fund mode needs no proviso, since recorded check sizes
are at least the `0.1` dust threshold.  A follow-on config with average
valuation 0 violates the unconditional claim (see the counterexample). -/
theorem c8_entry_amount_pos :
    (∀ (cfg : SimConfig) (fo foAB : Option FollowOn) (c : Company) (rand : Nat → ℚ) (k0 : Nat),
      0 ≤ c.checkSize → (∀ f, fo = some f → 0 < f.avgVal) → (∀ g, foAB = some g → 0 < g.avgVal) →
      0 < (simulateCompany cfg fo foAB c rand k0).1.entryAmount) ∧
    (∀ (cfg : SimConfig) (s : Stage) (rand : Nat → ℚ) (fuel : Nat) (allocation deployed : ℚ)
      (k : Nat) (inv : Investment), inv ∈ (genStage cfg s rand fuel allocation deployed k).1 →
      0 < inv.entryAmount) := by
  constructor
  · intro cfg fo foAB c rand k0 hc hfo hfab
    have hinit : 0 < (initialPState c k0).entryAmount := by
      simp only [initialPState]
      split_ifs with h
      · norm_num
      · exact lt_of_le_of_ne hc (Ne.symm h)
    have hloop := portfolioLoop_invariant cfg fo foAB c.id rand (fun st => 0 < st.entryAmount)
      (fun st fs h => portfolioStep_entry_pos cfg fo foAB c.id rand st fs hfo hfab h)
      (transitionsFrom c.stage) (initialPState c k0) hinit
    calc (0 : ℚ) < _ := hloop
      _ = (simulateCompany cfg fo foAB c rand k0).1.entryAmount :=
        ((simulateCompany_spec cfg fo foAB c rand k0).2.1).symm
  · intro cfg s rand fuel allocation deployed k inv h
    calc (0 : ℚ) < 1/10 := by norm_num
      _ ≤ inv.entryAmount := genStage_entry_ge cfg s rand fuel allocation deployed k inv h

/-- C8 counterexample: a Seed company with check size 5 selected in a Seed
follow-on config whose average valuation is 0 (a non-negative value the
claim admits) gets its `entryAmount` overwritten to 0 by the forced
follow-on, so the produced record violates `entryAmount > 0`. -/
theorem c8_counterexample :
    (simulateCompany { emptyCfg with probAdvancement := fun _ => some 0 }
        (some ⟨0, fun _ => true⟩) none ⟨0, Stage.seed, 5⟩ (fun _ => 0) 0).1.entryAmount = 0 := by
  simp [simulateCompany, portfolioLoop, portfolioStep, initialPState, transitionsFrom,
    selectedIn, sampleUniform, Stage.next, emptyCfg]

/-- Witness for C8 at concrete inputs: a Seed company with positive check
size and positive follow-on valuations, and a concrete fund-mode generated
investment. -/
theorem c8_witness :
    0 < (simulateCompany emptyCfg (some ⟨9, fun _ => true⟩) none ⟨0, Stage.seed, 2⟩
      (fun _ => 0) 0).1.entryAmount ∧
    0 < (⟨Stage.seed, 1, Stage.ipo, 0⟩ : Investment).entryAmount := by
  constructor
  · exact c8_entry_amount_pos.1 emptyCfg (some ⟨9, fun _ => true⟩) none ⟨0, Stage.seed, 2⟩
      (fun _ => 0) 0 (by norm_num) (fun f hf => by cases hf; norm_num)
      (fun g hg => by cases hg)
  · exact c8_entry_amount_pos.2 unitCfg
      Stage.seed (fun _ => 0) 1 1 0 0 ⟨Stage.seed, 1, Stage.ipo, 0⟩
      (by simp [genStage, fundSimulateInvestment, fundAdvanceLoop, transitionsFrom,
          sampleUniform, Stage.next, unitCfg, emptyCfg]
          norm_num)

/-- With no applicable follow-on override, a portfolio step whose draw is
not strictly below the advancement probability stalls: it returns the state
unchanged except for the consumed draw, and signals `break`. -/
theorem portfolioStep_stall (cfg : SimConfig) (fo foAB : Option FollowOn) (cid : Nat)
    (rand : Nat → ℚ) (st : PState) (fs : Stage)
    (hs : selectedIn fo cid = false) (hab : selectedIn foAB cid = false)
    (hr : ¬(rand st.k * 100 < (cfg.probAdvancement fs).getD 0)) :
    portfolioStep cfg fo foAB cid rand st fs = ({ st with k := st.k + 1 }, false) := by
  simp [portfolioStep, hs, hab, hr]

/-- With no applicable follow-on override, a portfolio step whose draw is
strictly below the advancement probability advances to the next stage. -/
theorem portfolioStep_advances (cfg : SimConfig) (fo foAB : Option FollowOn) (cid : Nat)
    (rand : Nat → ℚ) (st : PState) (fs : Stage)
    (hs : selectedIn fo cid = false) (hab : selectedIn foAB cid = false)
    (hr : rand st.k * 100 < (cfg.probAdvancement fs).getD 0) :
    (portfolioStep cfg fo foAB cid rand st fs).1.currentStage = fs.next := by
  simp only [portfolioStep, hs, hab]
  simp only [Bool.and_false, Bool.false_and, Bool.or_self, if_neg (by simp : ¬(false = true))]
  rw [if_pos hr]
  split_ifs <;> simp

/-- After a stall, the portfolio stage loop terminates immediately: no
further advancement is attempted in this run. -/
theorem portfolioLoop_stall (cfg : SimConfig) (fo foAB : Option FollowOn) (cid : Nat)
    (rand : Nat → ℚ) (st : PState) (fs : Stage) (rest : List Stage)
    (hs : selectedIn fo cid = false) (hab : selectedIn foAB cid = false)
    (hr : ¬(rand st.k * 100 < (cfg.probAdvancement fs).getD 0)) :
    portfolioLoop cfg fo foAB cid rand (fs :: rest) st = { st with k := st.k + 1 } := by
  simp only [portfolioLoop, portfolioStep_stall cfg fo foAB cid rand st fs hs hab hr]
  simp

/-- C3 (amended): at a stage boundary the investment advances exactly when
the drawn `r` (times 100) passes the configured advancement probability
(default 0 when the key is absent), and otherwise it stalls and the loop
stops — but the comparison differs by mode: portfolio mode advances iff
`r * 100 < prob` (strict, as the claim states), while fund mode advances iff
`r * 100 <= prob` (the source uses `<=`), so in fund mode a draw exactly
equal to the probability advances. -/
theorem c3_advancement_comparison :
    (∀ (cfg : SimConfig) (fo foAB : Option FollowOn) (cid : Nat) (rand : Nat → ℚ)
      (st : PState) (fs : Stage) (rest : List Stage),
      selectedIn fo cid = false → selectedIn foAB cid = false →
      ¬(rand st.k * 100 < (cfg.probAdvancement fs).getD 0) →
      portfolioStep cfg fo foAB cid rand st fs = ({ st with k := st.k + 1 }, false) ∧
      portfolioLoop cfg fo foAB cid rand (fs :: rest) st = { st with k := st.k + 1 }) ∧
    (∀ (cfg : SimConfig) (fo foAB : Option FollowOn) (cid : Nat) (rand : Nat → ℚ)
      (st : PState) (fs : Stage),
      selectedIn fo cid = false → selectedIn foAB cid = false →
      rand st.k * 100 < (cfg.probAdvancement fs).getD 0 →
      (portfolioStep cfg fo foAB cid rand st fs).1.currentStage = fs.next) ∧
    (∀ (cfg : SimConfig) (rand : Nat → ℚ) (st : FState) (fs : Stage) (rest : List Stage),
      ¬(rand st.k * 100 ≤ (cfg.probAdvancement fs).getD 0) →
      fundAdvanceLoop cfg rand (fs :: rest) st = { st with k := st.k + 1 }) ∧
    (∀ (cfg : SimConfig) (rand : Nat → ℚ) (st : FState) (fs : Stage) (rest : List Stage),
      rand st.k * 100 ≤ (cfg.probAdvancement fs).getD 0 →
      fundAdvanceLoop cfg rand (fs :: rest) st = fundAdvanceLoop cfg rand rest
        { equity := st.equity *
            (1 - sampleUniform ((cfg.dilution fs).getD (10, 20)) (rand (st.k + 1)) / 100),
          currentStage := fs.next, k := st.k + 2 }) := by
  refine ⟨?_, ?_, ?_, ?_⟩
  · intro cfg fo foAB cid rand st fs rest hs hab hr
    exact ⟨portfolioStep_stall cfg fo foAB cid rand st fs hs hab hr,
      portfolioLoop_stall cfg fo foAB cid rand st fs rest hs hab hr⟩
  · intro cfg fo foAB cid rand st fs hs hab hr
    exact portfolioStep_advances cfg fo foAB cid rand st fs hs hab hr
  · intro cfg rand st fs rest hr
    simp only [fundAdvanceLoop]
    rw [if_neg hr]
  · intro cfg rand st fs rest hr
    simp only [fundAdvanceLoop]
    rw [if_pos hr]

/-- C3 counterexample: in fund mode, with advancement probability 50 for
Seed → Series A and a draw of exactly `0.5` (so `r * 100 = 50`, not strictly
below the probability), the investment still advances to Series A — the fund
loop uses `<=`, so draws equal to the probability advance instead of
stalling as the claim requires. -/
theorem c3_counterexample :
    ((fun _ => (1/2 : ℚ)) 0) * 100 = (c3Cfg.probAdvancement Stage.seed).getD 0 ∧
    (fundAdvanceLoop c3Cfg (fun _ => 1/2) [Stage.seed]
      ⟨1, Stage.seed, 0⟩).currentStage = Stage.seriesA := by
  constructor
  · norm_num [c3Cfg]
  · simp [fundAdvanceLoop, sampleUniform, Stage.next, c3Cfg, emptyCfg]
    norm_num

/-- Witness for C3 at concrete inputs: a stalled portfolio step and loop
(probability 0, draw 0), an advancing portfolio step (probability 100), and
a stalled and an advancing fund step. -/
theorem c3_witness :
    (portfolioStep emptyCfg none none 0 (fun _ => 0)
        (initialPState ⟨0, Stage.seed, 2⟩ 0) Stage.seed).2 = false ∧
    portfolioLoop emptyCfg none none 0 (fun _ => 0) [Stage.seed]
      (initialPState ⟨0, Stage.seed, 2⟩ 0) =
      { initialPState ⟨0, Stage.seed, 2⟩ 0 with k := 0 + 1 } ∧
    (portfolioStep { emptyCfg with probAdvancement := fun _ => some 100 } none none 0
        (fun _ => 0) (initialPState ⟨0, Stage.seed, 2⟩ 0) Stage.seed).1.currentStage =
      Stage.seriesA ∧
    fundAdvanceLoop emptyCfg (fun _ => 1/2) [Stage.seed] ⟨1, Stage.seed, 0⟩ =
      ⟨1, Stage.seed, 0 + 1⟩ ∧
    (fundAdvanceLoop { emptyCfg with probAdvancement := fun _ => some 100 } (fun _ => 1/2)
      [Stage.seed] ⟨1, Stage.seed, 0⟩).currentStage = Stage.seriesA := by
  refine ⟨?_, ?_, ?_, ?_, ?_⟩
  · rw [(c3_advancement_comparison.1 emptyCfg none none 0 (fun _ => 0)
      (initialPState ⟨0, Stage.seed, 2⟩ 0) Stage.seed [] rfl rfl
      (by norm_num [emptyCfg, initialPState])).1]
  · exact (c3_advancement_comparison.1 emptyCfg none none 0 (fun _ => 0)
      (initialPState ⟨0, Stage.seed, 2⟩ 0) Stage.seed [] rfl rfl
      (by norm_num [emptyCfg, initialPState])).2
  · rw [c3_advancement_comparison.2.1 _ none none 0 (fun _ => 0)
      (initialPState ⟨0, Stage.seed, 2⟩ 0) Stage.seed rfl rfl
      (by norm_num [emptyCfg, initialPState])]
    rfl
  · exact c3_advancement_comparison.2.2.1 emptyCfg (fun _ => 1/2) ⟨1, Stage.seed, 0⟩
      Stage.seed [] (by norm_num [emptyCfg])
  · rw [c3_advancement_comparison.2.2.2 _ (fun _ => 1/2) ⟨1, Stage.seed, 0⟩
      Stage.seed [] (by norm_num [emptyCfg])]
    rfl

/-- `sumEntry` over a cons. -/
theorem sumEntry_cons (i : Investment) (l : List Investment) :
    sumEntry (i :: l) = i.entryAmount + sumEntry l := by simp [sumEntry]

/-- The generator's deployed-capital invariant: the recorded check sizes
plus what was already deployed never exceed the allocation (or the already
deployed amount, if that somehow exceeded the allocation). -/
theorem genStage_sum_le (cfg : SimConfig) (s : Stage) (rand : Nat → ℚ) :
    ∀ (fuel : Nat) (allocation deployed : ℚ) (k : Nat),
    sumEntry (genStage cfg s rand fuel allocation deployed k).1 + deployed ≤
      max allocation deployed := by
  intro fuel
  induction fuel with
  | zero => intro a d k; simp [genStage, sumEntry, le_max_right]
  | succ n ih =>
    intro a d k
    simp only [genStage]
    split_ifs with h1 h2
    · simp [sumEntry, le_max_right]
    · dsimp only
      have hmin : min (sampleUniform ((cfg.checkSizes s).getD (1/2, 2)) (rand (k + 1)))
          (a - d) ≤ a - d := min_le_right _ _
      have hda : d + min (sampleUniform ((cfg.checkSizes s).getD (1/2, 2)) (rand (k + 1)))
          (a - d) ≤ a := by linarith
      have hIH := ih a
        (d + min (sampleUniform ((cfg.checkSizes s).getD (1/2, 2)) (rand (k + 1))) (a - d))
        (fundSimulateInvestment cfg s
          (min (sampleUniform ((cfg.checkSizes s).getD (1/2, 2)) (rand (k + 1))) (a - d))
          (sampleUniform ((cfg.valuations s).getD (1, 10)) (rand k)) rand (k + 2)).2
      rw [max_eq_left hda] at hIH
      have hentry := (fundSimulateInvestment_fields cfg s
        (min (sampleUniform ((cfg.checkSizes s).getD (1/2, 2)) (rand (k + 1))) (a - d))
        (sampleUniform ((cfg.valuations s).getD (1, 10)) (rand k)) rand (k + 2)).2.1
      rw [sumEntry_cons, hentry, max_eq_left (le_of_lt h1)]
      linarith
    · simp [sumEntry, le_max_right]

/-- C6: the fund-mode generator clips every sampled check to the remaining
stage budget and stops on the `0.1` dust threshold, so the recorded entry
amounts of a stage sum to at most `allocation% x deployableCapital`. -/
theorem c6_generator_budget :
    (∀ (cfg : SimConfig) (s : Stage) (rand : Nat → ℚ) (fuel : Nat) (k : Nat),
      0 ≤ stageBudget cfg s →
      sumEntry (genStage cfg s rand fuel (stageBudget cfg s) 0 k).1 ≤ stageBudget cfg s) ∧
    (∀ (cfg : SimConfig) (s : Stage) (rand : Nat → ℚ) (fuel : Nat) (deployed : ℚ) (k : Nat),
      deployed < stageBudget cfg s →
      min (sampleUniform ((cfg.checkSizes s).getD (1/2, 2)) (rand (k + 1)))
          (stageBudget cfg s - deployed) < 1/10 →
      genStage cfg s rand (fuel + 1) (stageBudget cfg s) deployed k = ([], k + 2)) := by
  constructor
  · intro cfg s rand fuel k h
    have hsum := genStage_sum_le cfg s rand fuel (stageBudget cfg s) 0 k
    rw [max_eq_left h] at hsum
    linarith
  · intro cfg s rand fuel deployed k h1 h2
    simp only [genStage]
    rw [if_pos h1, if_pos h2]

/-- Witness for C6 at concrete inputs: a zero-budget stage (nothing
generated, sum 0 ≤ 0) and a positive-budget stage whose first sampled check
is 0, triggering the dust stop. -/
theorem c6_witness :
    sumEntry (genStage emptyCfg Stage.seed (fun _ => 0) 3 (stageBudget emptyCfg Stage.seed)
      0 0).1 ≤ stageBudget emptyCfg Stage.seed ∧
    genStage dustCfg Stage.seed (fun _ => 0) 3
      (stageBudget dustCfg Stage.seed) 0 0 = ([], 0 + 2) := by
  constructor
  · exact c6_generator_budget.1 emptyCfg Stage.seed (fun _ => 0) 3 0
      (by norm_num [stageBudget, emptyCfg])
  · exact c6_generator_budget.2 dustCfg Stage.seed (fun _ => 0) 2 0 0
      (by norm_num [stageBudget, dustCfg, emptyCfg])
      (by norm_num [sampleUniform, stageBudget, dustCfg, emptyCfg])

/-- C7: in both modes the realized stage sequence is monotonically
non-decreasing in the fixed order: every loop step either keeps the current
stage (stall) or moves it to the immediately next stage, and the recorded
exit stage is never earlier than the entry stage. -/
theorem c7_monotone_stages :
    (∀ (cfg : SimConfig) (fo foAB : Option FollowOn) (cid : Nat) (rand : Nat → ℚ)
      (st : PState) (fs : Stage),
      (portfolioStep cfg fo foAB cid rand st fs).1.currentStage = st.currentStage ∨
      (portfolioStep cfg fo foAB cid rand st fs).1.currentStage = fs.next) ∧
    (∀ (cfg : SimConfig) (fo foAB : Option FollowOn) (c : Company) (rand : Nat → ℚ) (k0 : Nat),
      (simulateCompany cfg fo foAB c rand k0).1.entryStage = c.stage ∧
      c.stage.idx ≤ (simulateCompany cfg fo foAB c rand k0).1.exitStage.idx) ∧
    (∀ (cfg : SimConfig) (rand : Nat → ℚ) (st : FState) (fs : Stage) (rest : List Stage),
      fundAdvanceLoop cfg rand (fs :: rest) st = { st with k := st.k + 1 } ∨
      fundAdvanceLoop cfg rand (fs :: rest) st = fundAdvanceLoop cfg rand rest
        { equity := st.equity *
            (1 - sampleUniform ((cfg.dilution fs).getD (10, 20)) (rand (st.k + 1)) / 100),
          currentStage := fs.next, k := st.k + 2 }) ∧
    (∀ (cfg : SimConfig) (s : Stage) (c v : ℚ) (rand : Nat → ℚ) (k0 : Nat),
      (fundSimulateInvestment cfg s c v rand k0).1.entryStage = s ∧
      s.idx ≤ (fundSimulateInvestment cfg s c v rand k0).1.exitStage.idx) := by
  refine ⟨?_, ?_, ?_, ?_⟩
  · intro cfg fo foAB cid rand st fs
    rcases portfolioStep_cases cfg fo foAB cid rand st fs with heq | ⟨_, hc, _⟩ |
      ⟨_, hc, _, _, hn⟩
    · left; rw [heq]
    · right; exact hc
    · right; rw [hc, hn]
  · intro cfg fo foAB c rand k0
    have hspec := simulateCompany_spec cfg fo foAB c rand k0
    refine ⟨hspec.1, ?_⟩
    have hidx := portfolioLoop_idx_le cfg fo foAB c.id rand (transitionsFrom c.stage)
      (initialPState c k0) rfl
    rcases hspec.2.2.2.2 with hex | ⟨hex, hipo⟩
    · rw [hex]
      exact hidx
    · have hreach := portfolioLoop_reachedIPO cfg fo foAB c.id rand (transitionsFrom c.stage)
        (initialPState c k0) (by simp [initialPState]) hipo
      rw [hex, hreach.1]
      simpa [Stage.idx] using Stage.idx_le_five c.stage
  · intro cfg rand st fs rest
    exact fundAdvanceLoop_cases cfg rand fs rest st
  · intro cfg s c v rand k0
    have hfields := fundSimulateInvestment_fields cfg s c v rand k0
    refine ⟨hfields.1, ?_⟩
    rw [hfields.2.2]
    exact fundAdvanceLoop_idx_le cfg rand (transitionsFrom s)
      { equity := c / v, currentStage := s, k := k0 } rfl

/-- C1 (amended): in portfolio mode, advancing out of Series C does set
`exitStage = IPO`, sample the exit from `exitValuationRanges["Series C"]`
(default `[100, 1000]`) and stop the stage loop — but the loss-probability
check is NOT skipped for IPO exits: after the loop it runs with the IPO
stage's loss probability (`lossProbabilities["IPO"] ?? 30`) and, when it
fires, replaces the sampled exit amount with 0 (when it does not fire the
IPO-sampled amount stands, with no resampling).  In fund mode there is no
IPO short-circuit at all: an investment whose loop ends at IPO is priced
from `exitValuationRanges["IPO"]` (default `[10, 90]`), subject to the same
terminal loss check. -/
theorem c1_ipo_short_circuit :
    (∀ (cfg : SimConfig) (fo foAB : Option FollowOn) (cid : Nat) (rand : Nat → ℚ)
      (st : PState), rand st.k * 100 < (cfg.probAdvancement Stage.seriesC).getD 0 →
      portfolioStep cfg fo foAB cid rand st Stage.seriesC =
        ({ st with
            equity := st.equity *
              (1 - sampleUniform ((cfg.dilution Stage.seriesC).getD (10, 25))
                (rand (st.k + 1)) / 100)
            currentStage := Stage.ipo
            exitStage := Stage.ipo
            exitAmount := st.equity *
              (1 - sampleUniform ((cfg.dilution Stage.seriesC).getD (10, 25))
                (rand (st.k + 1)) / 100) *
              sampleUniform ((cfg.exitValuations Stage.seriesC).getD (100, 1000))
                (rand (st.k + 2)) * st.entryAmount
            reachedIPO := true
            k := st.k + 3 }, false)) ∧
    (∀ (cfg : SimConfig) (fo foAB : Option FollowOn) (c : Company) (rand : Nat → ℚ) (k0 : Nat),
      (portfolioLoop cfg fo foAB c.id rand (transitionsFrom c.stage)
        (initialPState c k0)).reachedIPO = true →
      (simulateCompany cfg fo foAB c rand k0).1.exitStage = Stage.ipo ∧
      (simulateCompany cfg fo foAB c rand k0).1.exitAmount =
        (if rand (portfolioLoop cfg fo foAB c.id rand (transitionsFrom c.stage)
              (initialPState c k0)).k * 100 < (cfg.lossProbabilities Stage.ipo).getD 30
         then 0
         else (portfolioLoop cfg fo foAB c.id rand (transitionsFrom c.stage)
            (initialPState c k0)).exitAmount)) ∧
    (∀ (cfg : SimConfig) (s : Stage) (c v : ℚ) (rand : Nat → ℚ) (k0 : Nat),
      (fundAdvanceLoop cfg rand (transitionsFrom s)
        { equity := c / v, currentStage := s, k := k0 }).currentStage = Stage.ipo →
      (fundSimulateInvestment cfg s c v rand k0).1.exitAmount =
        (if rand (fundAdvanceLoop cfg rand (transitionsFrom s)
              { equity := c / v, currentStage := s, k := k0 }).k * 100 >
            (cfg.lossProbabilities Stage.ipo).getD 30
         then (fundAdvanceLoop cfg rand (transitionsFrom s)
              { equity := c / v, currentStage := s, k := k0 }).equity *
            sampleUniform ((cfg.exitValuations Stage.ipo).getD (10, 90))
              (rand ((fundAdvanceLoop cfg rand (transitionsFrom s)
                { equity := c / v, currentStage := s, k := k0 }).k + 1))
         else 0)) := by
  refine ⟨?_, ?_, ?_⟩
  · intro cfg fo foAB cid rand st hr
    simp [portfolioStep, Stage.next, hr]
  · intro cfg fo foAB c rand k0 hipo
    have hreach := portfolioLoop_reachedIPO cfg fo foAB c.id rand (transitionsFrom c.stage)
      (initialPState c k0) (by simp [initialPState]) hipo
    constructor
    · rcases (simulateCompany_spec cfg fo foAB c rand k0).2.2.2.2 with hex | ⟨hex, _⟩
      · rw [hex, hreach.2]
      · rw [hex, hreach.1]
    · simp only [simulateCompany]
      rw [hreach.2, hipo]
      split_ifs <;> simp_all
  · intro cfg s c v rand k0 hcur
    simp only [fundSimulateInvestment]
    rw [hcur]
    split_ifs <;> simp

/-- C1 counterexample: a portfolio company at Series C with advancement
probability 100 advances into IPO and samples exit 180 from the default
Series C range, yet the terminal loss check is still applied with
`currentStage = IPO`: with loss draw 0 (`0 < 30`, the default IPO loss
probability) the recorded IPO exit is zeroed out, while the identical run
with loss draw 0.5 keeps the sampled 180 — the loss-probability check is
not skipped for IPO exits, contrary to the claim. -/
theorem c1_counterexample :
    (simulateCompany seriesCCfg none none ⟨0, Stage.seriesC, 2⟩ (fun _ => 0) 0).1 =
      ⟨Stage.seriesC, 2, Stage.ipo, 0⟩ ∧
    (simulateCompany seriesCCfg none none ⟨0, Stage.seriesC, 2⟩
      (fun n => if n = 3 then 1/2 else 0) 0).1 = ⟨Stage.seriesC, 2, Stage.ipo, 180⟩ := by
  constructor
  · simp [simulateCompany, portfolioLoop, portfolioStep, initialPState, transitionsFrom,
      selectedIn, sampleUniform, Stage.next, seriesCCfg, emptyCfg]
  · simp [simulateCompany, portfolioLoop, portfolioStep, initialPState, transitionsFrom,
      selectedIn, sampleUniform, Stage.next, seriesCCfg, emptyCfg]
    norm_num

/-- Witness for C1 at concrete inputs: the Series C step with probability
100, the full portfolio run that reached IPO, and a fund-mode run that ends
at IPO (all advancement probabilities default to 0 and fund mode advances on
`r * 100 <= 0`). -/
theorem c1_witness :
    (portfolioStep seriesCCfg none none 0 (fun _ => 0)
      (initialPState ⟨0, Stage.seriesC, 2⟩ 0) Stage.seriesC).1.exitStage = Stage.ipo ∧
    (simulateCompany seriesCCfg none none ⟨0, Stage.seriesC, 2⟩ (fun _ => 0) 0).1.exitStage =
      Stage.ipo ∧
    (fundSimulateInvestment emptyCfg Stage.seriesC 2 1 (fun _ => 0) 0).1.exitAmount =
      (if (fun _ => (0 : ℚ)) ((fundAdvanceLoop emptyCfg (fun _ => 0)
            (transitionsFrom Stage.seriesC)
            { equity := 2 / 1, currentStage := Stage.seriesC, k := 0 }).k) * 100 >
          (emptyCfg.lossProbabilities Stage.ipo).getD 30
       then (fundAdvanceLoop emptyCfg (fun _ => 0) (transitionsFrom Stage.seriesC)
            { equity := 2 / 1, currentStage := Stage.seriesC, k := 0 }).equity *
          sampleUniform ((emptyCfg.exitValuations Stage.ipo).getD (10, 90))
            (( fun _ => (0 : ℚ)) ((fundAdvanceLoop emptyCfg (fun _ => 0)
              (transitionsFrom Stage.seriesC)
              { equity := 2 / 1, currentStage := Stage.seriesC, k := 0 }).k + 1))
       else 0) := by
  refine ⟨?_, ?_, ?_⟩
  · rw [c1_ipo_short_circuit.1 seriesCCfg none none 0 (fun _ => 0)
      (initialPState ⟨0, Stage.seriesC, 2⟩ 0) (by norm_num [seriesCCfg, emptyCfg, initialPState])]
  · exact (c1_ipo_short_circuit.2.1 seriesCCfg none none ⟨0, Stage.seriesC, 2⟩ (fun _ => 0) 0
      (by simp [portfolioLoop, portfolioStep, initialPState, transitionsFrom, selectedIn,
          sampleUniform, Stage.next, seriesCCfg, emptyCfg])).1
  · exact c1_ipo_short_circuit.2.2 emptyCfg Stage.seriesC 2 1 (fun _ => 0) 0
      (by simp [fundAdvanceLoop, transitionsFrom, sampleUniform, Stage.next, emptyCfg])

/-! ### Histogram lemmas -/

/-- `foldl min` over a list is below the accumulator and every element. -/
theorem foldl_min_le (xs : List ℚ) : ∀ a : ℚ,
    xs.foldl min a ≤ a ∧ ∀ v ∈ xs, xs.foldl min a ≤ v := by
  induction xs with
  | nil => intro a; simp
  | cons x xs ih =>
    intro a
    constructor
    · exact le_trans (ih (min a x)).1 (min_le_left a x)
    · intro v hv
      rcases List.mem_cons.1 hv with rfl | hv
      · exact le_trans (ih (min a v)).1 (min_le_right a v)
      · exact (ih (min a x)).2 v hv

/-- `foldl max` over a list is above the accumulator and every element. -/
theorem le_foldl_max (xs : List ℚ) : ∀ a : ℚ,
    a ≤ xs.foldl max a ∧ ∀ v ∈ xs, v ≤ xs.foldl max a := by
  induction xs with
  | nil => intro a; simp
  | cons x xs ih =>
    intro a
    constructor
    · exact le_trans (le_max_left a x) (ih (max a x)).1
    · intro v hv
      rcases List.mem_cons.1 hv with rfl | hv
      · exact le_trans (le_max_right a v) (ih (max a v)).1
      · exact (ih (max a x)).2 v hv

/-- The observed minimum is below every element. -/
theorem listMin_le (l : List ℚ) (v : ℚ) (hv : v ∈ l) : listMin l ≤ v := by
  cases l with
  | nil => simp at hv
  | cons x xs =>
    simp only [listMin]
    rcases List.mem_cons.1 hv with rfl | hv
    · exact (foldl_min_le xs v).1
    · exact (foldl_min_le xs x).2 v hv

/-- Every element is below the observed maximum. -/
theorem le_listMax (l : List ℚ) (v : ℚ) (hv : v ∈ l) : v ≤ listMax l := by
  cases l with
  | nil => simp at hv
  | cons x xs =>
    simp only [listMax]
    rcases List.mem_cons.1 hv with rfl | hv
    · exact (le_foldl_max xs v).1
    · exact (le_foldl_max xs x).2 v hv

/-- Sums over `List.range` distribute over pointwise addition. -/
theorem range_map_sum_add (n : Nat) (f g : Nat → Nat) :
    ((List.range n).map (fun i => f i + g i)).sum =
      ((List.range n).map f).sum + ((List.range n).map g).sum := by
  induction n with
  | zero => simp
  | succ m ih =>
    simp only [List.range_succ, List.map_append, List.sum_append, ih, List.map_cons,
      List.sum_cons, List.map_nil, List.sum_nil]
    omega

/-- The indicator of a single index below `n` sums to `1` over `range n`. -/
theorem sum_indicator_range (n i0 : Nat) (h : i0 < n) :
    ((List.range n).map (fun i => if i = i0 then (1 : Nat) else 0)).sum = 1 := by
  induction n with
  | zero => omega
  | succ m ih =>
    rw [List.range_succ, List.map_append, List.sum_append]
    rcases Nat.lt_or_ge i0 m with hm | hm
    · rw [ih hm]
      simp [Nat.ne_of_gt hm]
    · have he : i0 = m := Nat.le_antisymm (Nat.lt_succ_iff.1 h) hm
      subst he
      have hz : ((List.range i0).map (fun i => if i = i0 then (1 : Nat) else 0)).sum = 0 := by
        apply List.sum_eq_zero
        intro x hx
        obtain ⟨i, hi, rfl⟩ := List.mem_map.1 hx
        simp [Nat.ne_of_lt (List.mem_range.1 hi)]
      simp [hz]

/-- If an index function assigns every element of a list some bin below 10,
the ten filtered bin counts sum to the length of the list: every element
lands in exactly one bin. -/
theorem counts_sum (f : ℚ → Option ℤ) :
    ∀ l : List ℚ, (∀ v ∈ l, ∃ i : Nat, i < 10 ∧ f v = some (i : ℤ)) →
    ((List.range 10).map
      (fun i : Nat => (l.filter (fun v => f v = some (i : ℤ))).length)).sum = l.length := by
  intro l
  induction l with
  | nil => intro _; simp
  | cons v l ih =>
    intro h
    obtain ⟨i0, hi0, hf⟩ := h v (List.mem_cons_self v l)
    have hrest := ih (fun w hw => h w (List.mem_cons_of_mem _ hw))
    have hfun : (fun i : Nat => ((v :: l).filter (fun w => f w = some (i : ℤ))).length) =
        (fun i : Nat => (if i = i0 then 1 else 0) +
          (l.filter (fun w => f w = some (i : ℤ))).length) := by
      funext i
      rw [List.filter_cons]
      by_cases hi : i = i0
      · subst hi
        simp [hf]
        omega
      · have hne : ¬(f v = some (i : ℤ)) := by
          rw [hf]
          simp only [Option.some.injEq, Nat.cast_inj]
          omega
        simp [hne, hi]
    rw [hfun, range_map_sum_add, sum_indicator_range 10 i0 hi0, hrest]
    simp [Nat.add_comm]

/-- When the bin width is positive, every value at or above the observed
minimum gets a bin index in `[0, 9]`. -/
theorem jsBinIndex_exists (m w v : ℚ) (hw : 0 < w) (hv : m ≤ v) :
    ∃ i : Nat, i < 10 ∧ jsBinIndex m w v = some (i : ℤ) := by
  have h0 : (0 : ℤ) ≤ min ⌊(v - m) / w⌋ 9 := by
    apply le_min
    · exact Int.floor_nonneg.2 (div_nonneg (by linarith) hw.le)
    · norm_num
  refine ⟨(min ⌊(v - m) / w⌋ 9).toNat, ?_, ?_⟩
  · have h9 : min ⌊(v - m) / w⌋ 9 ≤ 9 := min_le_right _ _
    omega
  · simp only [jsBinIndex, if_neg hw.ne']
    rw [Int.toNat_of_nonneg h0]

/-- The observed maximum is assigned to the last bin (index 9). -/
theorem jsBinIndex_max (m M : ℚ) (h : m < M) :
    jsBinIndex m ((M - m) / 10) M = some 9 := by
  have hw : 0 < (M - m) / 10 := div_pos (by linarith) (by norm_num)
  simp only [jsBinIndex, if_neg hw.ne']
  have hq : (M - m) / ((M - m) / 10) = 10 := by
    rw [div_div_eq_mul_div, mul_comm, mul_div_assoc, div_self (by linarith : M - m ≠ 0),
      mul_one]
  rw [hq]
  have hfl : ⌊(10 : ℚ)⌋ = 10 := by
    rw [show (10 : ℚ) = ((10 : ℤ) : ℚ) by norm_num, Int.floor_intCast]
  rw [hfl]
  norm_num

/-- C9 (amended): for every list of per-run MOICs whose observed minimum is
strictly below its observed maximum, the histogram utility produces ten
equal-width bins spanning min to max, assigns every value to exactly one bin
(the counts sum to the list length), and counts the observed maximum (and
any overflow, via the clip to index 9) in the last bin.  When all values are
equal, `binSize = 0` and the JS index computation is `0 / 0 = NaN`, which
fails the bounds test, so no value is counted at all (see the
counterexample). -/
theorem c9_histogram (moics : List ℚ) (h : listMin moics < listMax moics) :
    (moicBinCounts moics).length = 10 ∧
    (moicBinCounts moics).sum = moics.length ∧
    jsBinIndex (listMin moics) ((listMax moics - listMin moics) / 10) (listMax moics) =
      some 9 := by
  refine ⟨by simp [moicBinCounts], ?_, jsBinIndex_max _ _ h⟩
  have hw : 0 < (listMax moics - listMin moics) / 10 := div_pos (by linarith) (by norm_num)
  simp only [moicBinCounts]
  exact counts_sum _ moics (fun v hv => jsBinIndex_exists _ _ v hw (listMin_le moics v hv))

/-- C9 counterexample: on the non-empty list `[1, 1]` (all MOICs equal) the
bin width is `(1 - 1) / 10 = 0`, the JS bin index is `0 / 0 = NaN` for every
value, and the `binIndex >= 0` test fails, so the bins count 0 of the 2
values — the utility does not assign every value of a non-empty list to a
bin. -/
theorem c9_counterexample :
    ([(1 : ℚ), 1].length = 2) ∧ (moicBinCounts [(1 : ℚ), 1]).sum = 0 := by
  constructor
  · rfl
  · simp [moicBinCounts, listMin, listMax, jsBinIndex]

/-- Witness for C9 on the concrete list `[0, 1]`. -/
theorem c9_witness :
    (moicBinCounts [(0 : ℚ), 1]).length = 10 ∧
    (moicBinCounts [(0 : ℚ), 1]).sum = 2 ∧
    jsBinIndex (listMin [(0 : ℚ), 1]) ((listMax [(0 : ℚ), 1] - listMin [(0 : ℚ), 1]) / 10)
      (listMax [(0 : ℚ), 1]) = some 9 := by
  have h := c9_histogram [(0 : ℚ), 1] (by norm_num [listMin, listMax])
  exact ⟨h.1, by simpa using h.2.1, h.2.2⟩

end VCSim
